import Mathlib

/-!
Verification of the logic proof-checking kernel (expression model, matcher,
rule application, theory/reference model) against its specification.

The C++ core is shallowly embedded:
* shared pointers to `Node` objects become values carrying a numeric `id`
  (the arena handle); structural equality of these values coincides with
  C++ pointer equality as long as every allocation receives a fresh id;
* the built-in type singletons become the `Expr.builtin` constructors;
* mutation of the `Substitution` state is turned into explicit state
  passing: the substitution map is threaded through the comparison and the
  scoped erasures performed by `Substitution::pop` are applied explicitly;
* functions that can throw, run into undefined behaviour (null dereference,
  out-of-bounds writes, past-the-end iterators, signed overflow) or diverge
  return `Option`/`MRes` values, with the error-like outcomes documented at
  each definition;
* the recursion of `Substitution::push` through context-supplied lambda
  bodies is not structurally decreasing (the C++ code can diverge on
  recursive contexts), so the matcher and the type serialiser take an
  explicit fuel argument; `MRes.stuck` covers both exhausted fuel and
  undefined behaviour.
-/

namespace LogicKernel

/-- Built-in type variants (`BuiltInType::Variant`). -/
inductive BType where
  | undefined
  | type
  | statement
  | rule
deriving DecidableEq, Repr

/-- Connective variants (`ConnectiveExpr::Variant`). -/
inductive ConnVar where
  | and
  | or
  | impl
  | equiv
deriving DecidableEq, Repr

/-- Quantifier variants (`QuantifierExpr::Variant`): EXISTS and FORALL. -/
inductive QuantVar where
  | ex
  | fa
deriving DecidableEq, Repr

/-- Expressions (`Core::Expression` and its concrete classes, head revision
where types are expressions as well):
`builtin` = `BuiltInType`, `lambdaType` = `LambdaType` (return type and
argument types), `atomic` = `AtomicExpr` (points at a node), `call` =
`LambdaCallExpr` (callee node and arguments), `neg` = `NegationExpr`,
`conn` = `ConnectiveExpr`, `quant` = `QuantifierExpr`, `lam` =
`LambdaExpr` (parameter nodes and body).

A node (`Core::Node`) is the triple (allocation id, declared type,
identifier): the first component models the allocation identity of the
underlying `shared_ptr`, so that structural equality of node triples
coincides with C++ pointer equality as long as every allocation receives
a fresh id. -/
inductive Expr where
  | builtin (b : BType)
  | lambdaType (ret : Expr) (args : List Expr)
  | atomic (n : Nat × Expr × String)
  | call (f : Nat × Expr × String) (args : List Expr)
  | neg (e : Expr)
  | conn (v : ConnVar) (a b : Expr)
  | quant (v : QuantVar) (p : Expr)
  | lam (params : List (Nat × Expr × String)) (body : Expr)

/-- A theory node: allocation id, declared type, identifier. -/
abbrev Node : Type := Nat × Expr × String

/-- Allocation identity of a node. -/
def Node.id (n : Node) : Nat := n.1

/-- Declared type of a node (`Node::getType`). -/
def Node.type (n : Node) : Expr := n.2.1

/-- Identifier of a node (`Node::getName`). -/
def Node.name (n : Node) : String := n.2.2

/-! ### Replacement contexts

`Core::Context` is `std::map<const_Node_ptr, const_Expr_ptr>`: keyed by the
node's pointer identity (the default `std::less` on `shared_ptr` orders by
address).  We model it as an association list keyed by the node's
allocation id, with at most one entry per key. -/

/-- The context type. -/
abbrev Ctx : Type := List (Node × Expr)

/-- `map::find` by pointer identity. -/
def ctxFind : Ctx → Node → Option Expr
  | [], _ => none
  | (k, e) :: rest, n => if Node.id k = Node.id n then some e else ctxFind rest n

/-- `map::insert`: does not overwrite an existing key. -/
def ctxInsert (m : Ctx) (n : Node) (e : Expr) : Ctx :=
  match ctxFind m n with
  | some _ => m
  | none => (n, e) :: m

/-- `map::erase` of one key. -/
def ctxErase (m : Ctx) (n : Node) : Ctx :=
  m.filter (fun p => Node.id p.1 != Node.id n)

/-- Erase every key of one parameter-list frame
(`Substitution::pop_params`). -/
def ctxEraseList (m : Ctx) (ps : List Node) : Ctx := ps.foldl ctxErase m

/-- Erase a stack of parameter-list frames, as the matching
`Substitution::pop` does down to the next null frame. -/
def eraseFrames (m : Ctx) (frames : List (List Node)) : Ctx :=
  frames.foldl ctxEraseList m

/-- `Substitution::add`: if the substitute is an atomic expression whose
atom is itself bound in the map, bind to that binding instead (the
shortcut), then insert without overwriting. -/
def substAdd (m : Ctx) (n : Node) (e : Expr) : Ctx :=
  match e with
  | .atomic a =>
    match ctxFind m a with
    | some e2 => ctxInsert m n e2
    | none => ctxInsert m n e
  | _ => ctxInsert m n e

/-- The binding loop of `Substitution::push` for a lambda-call: bind each
formal parameter of the substituted lambda to the corresponding call
argument.  The loop is bounded by the parameter list, so surplus arguments
are ignored, while a parameter list longer than the argument list
dereferences the past-the-end argument iterator: undefined behaviour,
`none`. -/
def bindParams : Ctx → List Node → List Expr → Option Ctx
  | m, [], _ => some m
  | m, p :: ps, a :: rest => bindParams (substAdd m p a) ps rest
  | _, _ :: _, [] => none

/-- The binding loop of `Substitution::visit(const LambdaExpr *)`: bind
each parameter of the template lambda to the corresponding parameter of
the target lambda, wrapped as a fresh atomic expression.  The loop is
bounded by the template's parameter list; a shorter target parameter list
dereferences a past-the-end iterator: undefined behaviour, `none`. -/
def bindLamParams : Ctx → List Node → List Node → Option Ctx
  | m, [], _ => some m
  | m, tp :: tps, sp :: sps => bindLamParams (substAdd m tp (.atomic sp)) tps sps
  | _, _ :: _, [] => none

/-! ### Types of expressions

`getType` of the head revision: each expression class computes its type;
`LambdaExpr::getType` contains the buggy argument-vector construction
(a one-element dummy-initialised vector written by `std::transform`). -/

/-- Does `e->getType()` return the built-in `type` singleton?  This models
the pointer comparison `e->getType() != BuiltInType::type` performed by
the `Node` and `LambdaType` constructors and by `TypeComparator`:
the singleton is only ever returned for built-in types, lambda types, and
atomic expressions whose node was declared with the singleton; negations,
connectives and quantifiers return the `statement` singleton, a
lambda-call returns the stored return type (compared by pointer), and a
lambda expression returns a freshly built `LambdaType`, never
pointer-equal to the singleton.  For a lambda expression the computation
of its type may itself be undefined (see `getType?`); since in the C++
system a lambda expression can never occur where this test is applied
(declared types and lambda-type components must have type `type`), that
unreachable branch is conservatively `none`. -/
def typeOfIsType : Expr → Option Bool
  | .builtin _ => some true
  | .lambdaType _ _ => some true
  | .atomic n =>
    match Node.type n with
    | .builtin .type => some true
    | _ => some false
  | .call f _ =>
    match Node.type f with
    | .lambdaType ret _ =>
      match ret with
      | .builtin .type => some true
      | _ => some false
    | _ => none
  | .neg _ => some false
  | .conn _ _ _ => some false
  | .quant _ _ => some false
  | .lam _ _ => none

/-- `Expression::getType` (head revision).  `none` models undefined
behaviour or a thrown exception:
* a lambda-call whose callee node does not have a lambda type hits a
  misused `static_pointer_cast`;
* `LambdaExpr::getType` initialises its argument-type vector as
  `std::vector{const_Expr_ptr()}` — one dummy null slot — and then writes
  the parameters' types into it with `std::transform`:
  - zero parameters leave the null slot in place and the `LambdaType`
    constructor then dereferences the null argument pointer;
  - one parameter overwrites the slot correctly;
  - two or more parameters write past the end of the vector;
* the `LambdaType` constructor throws `TypeException` unless the return
  type and every argument type themselves have type `type`. -/
def getType? : Expr → Option Expr
  | .builtin _ => some (.builtin .type)
  | .lambdaType _ _ => some (.builtin .type)
  | .atomic n => some (Node.type n)
  | .call f _ =>
    match Node.type f with
    | .lambdaType ret _ => some ret
    | _ => none
  | .neg _ => some (.builtin .statement)
  | .conn _ _ _ => some (.builtin .statement)
  | .quant _ _ => some (.builtin .statement)
  | .lam ps body =>
    match ps with
    | [p] =>
      match getType? body with
      | some bt =>
        match typeOfIsType bt, typeOfIsType (Node.type p) with
        | some true, some true => some (.lambdaType bt [Node.type p])
        | some _, some _ => none
        | _, _ => none
      | none => none
    | [] => none
    | _ :: _ :: _ => none

/-- Modelled from the spec (for comparison with `getType?` on lambdas):
`type_of` of a lambda is `lambda_type(arg_types = [type_of(p) for p in
params], return = type_of(body))`. -/
def lambdaTypeOfSpec (ps : List Node) (bodyType : Expr) : Expr :=
  .lambdaType bodyType (List.map Node.type ps)

/-! ### The type comparator

`TypeComparator` serialises both types into flat tag sequences and
compares the sequences.  The recursion through context-mapped expressions
is not structurally decreasing (a cyclic context would make the C++ code
recurse forever), so the serialiser takes fuel; `none` covers exhausted
fuel and undefined behaviour. -/

/-- Tags pushed into the comparator's description buffers: encoded
built-in variants, the open (`-1`) and close (`-2`) markers of a lambda
type, and node addresses. -/
inductive Tag where
  | bvar (b : BType)
  | lopen
  | lclose
  | node (id : Nat)
deriving DecidableEq, Repr

mutual
/-- Serialisation of one type expression (`TypeComparator::visit`):
built-ins and lambda types emit their tags, an atomic type resolves
through the context when the comparator holds one and the node is bound
(recursively serialising the mapped expression) and emits the node's
address otherwise.  Every other expression class hits a default no-op
visit and emits nothing. -/
def serializeT (ctx : Option Ctx) : Nat → Expr → Option (List Tag)
  | 0, _ => none
  | Nat.succ fuel, e =>
    match e with
    | .builtin b => some [.bvar b]
    | .lambdaType ret args =>
      match serializeT ctx fuel ret, serializeTList ctx fuel args with
      | some sr, some sa => some (.lopen :: (sr ++ sa ++ [.lclose]))
      | _, _ => none
    | .atomic n =>
      match ctx with
      | some m =>
        match ctxFind m n with
        | some mapped => serializeT ctx fuel mapped
        | none => some [.node (Node.id n)]
      | none => some [.node (Node.id n)]
    | _ => some []

/-- Serialisation of a list of argument types, in order. -/
def serializeTList (ctx : Option Ctx) : Nat → List Expr → Option (List Tag)
  | 0, _ => none
  | Nat.succ fuel, es =>
    match es with
    | [] => some []
    | a :: rest =>
      match serializeT ctx fuel a, serializeTList ctx fuel rest with
      | some sa, some sr => some (sa ++ sr)
      | _, _ => none
end

/-- `TypeComparator::operator()`: both arguments must be types (otherwise
a `logic_error` is thrown, `none` here); then the two serialisations are
compared.  The pointer-identity shortcut `if (a == b) return true` is
dropped: when both serialisations are defined the shortcut cannot change
the result (identical expressions serialise identically under the same
context), it only avoids work for aliased arguments. -/
def typeCompare (fuel : Nat) (ctx : Option Ctx) (a b : Expr) : Option Bool :=
  match typeOfIsType a, typeOfIsType b with
  | some true, some true =>
    match serializeT ctx fuel a, serializeT ctx fuel b with
    | some sa, some sb => some (decide (sa = sb))
    | _, _ => none
  | some _, some _ => none
  | _, _ => none

/-! ### The matcher (`Substitution`)

`Substitution::check(target, context)` walks the target expression while a
stack holds the template sub-expressions; `push` performs the on-the-fly
substitution (including lazy beta-reduction of bound lambda-calls) and
records on a parallel stack which parameter-list bindings the matching
`pop` must erase.  We restructure the two stacks into recursion: one
comparison step pushes the template, dispatches on the target variant
against the effective template, and erases the recorded frames on the way
out.  The substitution map is threaded explicitly. -/

/-- Result of a matcher computation. `errCallAtom` is the `throw -1` hit
when a lambda-call template's callee is bound to an atomic expression
(the TODO in `Substitution::push`).  `stuck` covers undefined behaviour
(misused casts, past-the-end iterators, null dereferences), other thrown
exceptions, and exhausted fuel. -/
inductive MRes (α : Type) where
  | ok (a : α)
  | errCallAtom
  | stuck
deriving DecidableEq, Repr

/-- Did the computation return an ordinary value (neither an exception
nor undefined behaviour nor exhausted fuel)? -/
def MRes.isOk : MRes α → Bool
  | .ok _ => true
  | .errCallAtom => false
  | .stuck => false

/-- `Substitution::push`, accumulated to its overall effect: resolve the
template through the substitution map, returning the effective template
expression left at the top of the stack, the extended map, and the
parameter-list frames that the matching `pop` will erase.
* A bound atomic template is replaced by its substitute (without further
  resolution).
* A lambda-call template whose callee is bound: an atomic substitute hits
  the `throw -1` TODO; a lambda substitute is beta-reduced lazily — the
  formal parameters are bound to the call arguments and the lambda's body
  is pushed recursively; any other substitute is cast to `LambdaExpr`
  regardless (undefined behaviour).
* Anything else is pushed unchanged. -/
def pushR : Nat → Ctx → Expr → List (List Node) → MRes (Expr × Ctx × List (List Node))
  | 0, _, _, _ => .stuck
  | Nat.succ fuel, m, t, frames =>
    match t with
    | .atomic a =>
      match ctxFind m a with
      | some d => .ok (d, m, frames)
      | none => .ok (t, m, frames)
    | .call f args =>
      match ctxFind m f with
      | some d =>
        match d with
        | .atomic _ => .errCallAtom
        | .lam ps body =>
          match bindParams m ps args with
          | some m2 => pushR fuel m2 body (ps :: frames)
          | none => .stuck
        | _ => .stuck
      | none => .ok (t, m, frames)
    | _ => .ok (t, m, frames)

mutual
/-- One full template/target comparison: push the template, dispatch on
the target (`cmpV`), pop (erasing the frames the push introduced). -/
def cmpE : Nat → Expr → Expr → Ctx → MRes (Bool × Ctx)
  | 0, _, _, _ => .stuck
  | Nat.succ fuel, templ, target, m =>
    match pushR (Nat.succ fuel) m templ [] with
    | .errCallAtom => .errCallAtom
    | .stuck => .stuck
    | .ok (te, m1, frames) =>
      match cmpV fuel te target m1 with
      | .ok (b, m2) => .ok (b, eraseFrames m2 frames)
      | .errCallAtom => .errCallAtom
      | .stuck => .stuck

/-- The visit dispatch of `Substitution`: compare the effective template
`te` at the top of the stack against the target, variant by variant.
A mismatch records an offender (result `false`) — the walk does not
short-circuit inside an expression, mirroring the C++ visits that compare
both operands regardless.  Targets of the remaining expression classes
(built-in types, lambda types) hit the default no-op visit and record
nothing. -/
def cmpV : Nat → Expr → Expr → Ctx → MRes (Bool × Ctx)
  | 0, _, _, _ => .stuck
  | Nat.succ fuel, te, target, m =>
    match target with
    | .atomic n =>
      match te with
      | .atomic a => .ok (Node.id a == Node.id n, m)
      | _ => .ok (false, m)
    | .call g targs =>
      match te with
      | .call h texprs =>
        if Node.id h = Node.id g then
          cmpArgs fuel (texprs.zip targs) m
        else .ok (false, m)
      | _ => .ok (false, m)
    | .neg tg =>
      match te with
      | .neg teI => cmpE fuel teI tg m
      | _ => .ok (false, m)
    | .conn v a b =>
      match te with
      | .conn v2 a2 b2 =>
        if v2 = v then
          match cmpE fuel a2 a m with
          | .ok (r1, m1) =>
            match cmpE fuel b2 b m1 with
            | .ok (r2, m2) => .ok (r1 && r2, m2)
            | .errCallAtom => .errCallAtom
            | .stuck => .stuck
          | .errCallAtom => .errCallAtom
          | .stuck => .stuck
        else .ok (false, m)
      | _ => .ok (false, m)
    | .quant v p =>
      match te with
      | .quant v2 p2 => if v2 = v then cmpE fuel p2 p m else .ok (false, m)
      | _ => .ok (false, m)
    | .lam ps body =>
      match te with
      | .lam tps tbody =>
        match getType? target, getType? te with
        | some tgTy, some teTy =>
          match typeCompare fuel none tgTy teTy with
          | some true =>
            match bindLamParams m tps ps with
            | some m1 =>
              match cmpE fuel tbody body m1 with
              | .ok (b, m2) => .ok (b, ctxEraseList m2 tps)
              | .errCallAtom => .errCallAtom
              | .stuck => .stuck
            | none => .stuck
          | some false => .ok (false, m)
          | none => .stuck
        | _, _ => .stuck
      | _ => .ok (false, m)
    | .builtin _ => .ok (true, m)
    | .lambdaType _ _ => .ok (true, m)

/-- The argument loop of `Substitution::visit(const LambdaCallExpr *)`:
compare argument pairs in order (push, visit, pop each); the loop stops at
the end of the shorter list. -/
def cmpArgs : Nat → List (Expr × Expr) → Ctx → MRes (Bool × Ctx)
  | 0, _, _ => .stuck
  | Nat.succ _, [], m => .ok (true, m)
  | Nat.succ fuel, (teA, tgA) :: rest, m =>
    match cmpE fuel teA tgA m with
    | .ok (b, m1) =>
      match cmpArgs fuel rest m1 with
      | .ok (b2, m2) => .ok (b && b2, m2)
      | .errCallAtom => .errCallAtom
      | .stuck => .stuck
    | .errCallAtom => .errCallAtom
    | .stuck => .stuck
end

/-- `Substitution::check(target, context)`: reinitialise the map from the
given context, push the template, walk the target, pop; the result is
`true` iff no mismatch was recorded.  The map state is discarded at the
end of each call (the next call reinitialises it). -/
def check (fuel : Nat) (templ : Expr) (ctx : Ctx) (target : Expr) : MRes Bool :=
  match cmpE fuel templ target ctx with
  | .ok (b, _) => .ok b
  | .errCallAtom => .errCallAtom
  | .stuck => .stuck

/-! ### Rules and their validation

`Rule::validate` delegates to the virtual `validate_pass` of the three
rule shapes.  A premise of a proof step is a `Reference` to a statement;
`validate_pass` only ever uses the referenced statement's definition
expression, so premises are modeled by those expressions (dereferencing a
reference into the immutable theory is a pure lookup). -/

/-- The three rule shapes, each with its parameter list and template
statements (`Tautology`, `EquivalenceRule`, `DeductionRule`). -/
inductive Rule where
  | tautology (params : List Node) (s : Expr)
  | equivalence (params : List Node) (s1 s2 : Expr)
  | deduction (params : List Node) (prems : List Expr) (concl : Expr)

/-- C++ `&&` over matcher results: short-circuits on `false`, propagates
exceptions. -/
def mAnd (a : MRes Bool) (b : Unit → MRes Bool) : MRes Bool :=
  match a with
  | .ok true => b ()
  | .ok false => .ok false
  | .errCallAtom => .errCallAtom
  | .stuck => .stuck

/-- C++ `||` over matcher results: short-circuits on `true`, propagates
exceptions. -/
def mOr (a : MRes Bool) (b : Unit → MRes Bool) : MRes Bool :=
  match a with
  | .ok true => .ok true
  | .ok false => b ()
  | .errCallAtom => .errCallAtom
  | .stuck => .stuck

/-- The `std::mismatch` loop of `DeductionRule::validate_pass`: check each
premise template against the corresponding referenced statement's
expression, in declared order, stopping at the first failure. -/
def checkPremisses (fuel : Nat) (ctx : Ctx) : List (Expr × Expr) → MRes Bool
  | [] => .ok true
  | (t, p) :: rest => mAnd (check fuel t ctx p) (fun _ => checkPremisses fuel ctx rest)

/-- `Rule::validate` → `validate_pass`:
* `Tautology`: zero references required, else `false`; then match the
  template against the conclusion.
* `EquivalenceRule`: exactly one reference required, else `false`; then
  try both directions of the equivalence.
* `DeductionRule`: as many references as premise templates, else `false`;
  then match the premises in order (short-circuit) and finally the
  conclusion. -/
def Rule.validate (fuel : Nat) (r : Rule) (ctx : Ctx) (premises : List Expr)
    (concl : Expr) : MRes Bool :=
  match r with
  | .tautology _ s =>
    if premises.length ≠ 0 then .ok false
    else check fuel s ctx concl
  | .equivalence _ s1 s2 =>
    match premises with
    | [p] =>
      mOr (mAnd (check fuel s1 ctx p) (fun _ => check fuel s2 ctx concl))
          (fun _ => mAnd (check fuel s1 ctx concl) (fun _ => check fuel s2 ctx p))
    | _ => .ok false
  | .deduction _ prems conclT =>
    if premises.length ≠ prems.length then .ok false
    else mAnd (checkPremisses fuel ctx (prems.zip premises))
              (fun _ => check fuel conclT ctx concl)

/-! ### Proof steps and theory verification -/

/-- A proof step (`ProofStep`) after construction: the rule, the context
built from the rule's parameters and the argument expressions, and the
premise references (modeled by the expressions of the referenced
statements). -/
structure PStep where
  rule : Rule
  subst : Ctx
  premises : List Expr

/-- `ProofStep::proves`: validate the rule application against the
statement's definition expression. -/
def PStep.proves (fuel : Nat) (p : PStep) (stmtExpr : Expr) : MRes Bool :=
  Rule.validate fuel p.rule p.subst p.premises stmtExpr

/-- An object of a theory sequence: a plain node declaration, a statement
(with its definition expression and optional proof), or a rule.  The
constructor records the dynamic type that `std::dynamic_pointer_cast`
sees. -/
inductive TObject where
  | decl (n : Node)
  | stmt (name : String) (expr : Expr) (proof : Option PStep)
  | rule (name : String) (r : Rule)

/-- Identifier of a theory object (`Object::getName`). -/
def TObject.name : TObject → String
  | .decl n => Node.name n
  | .stmt nm _ _ => nm
  | .rule nm _ => nm

/-- The body of the `std::all_of` lambda in `Theory::verify`: objects
whose declared type is `statement` and which really are `Statement`
instances (the dynamic cast succeeds) and carry a proof contribute the
proof's validation; everything else — plain nodes even when declared with
type `statement` (the cast fails), statements without a proof (axioms),
rules — contributes `true`. -/
def objectVerifies (fuel : Nat) : TObject → MRes Bool
  | .stmt _ e (some p) => PStep.proves fuel p e
  | .stmt _ _ none => .ok true
  | .decl _ => .ok true
  | .rule _ _ => .ok true

/-- `Theory::verify`: `std::all_of` over the object sequence (stops at the
first `false`; a thrown exception propagates). -/
def theoryVerify (fuel : Nat) : List TObject → MRes Bool
  | [] => .ok true
  | o :: rest => mAnd (objectVerifies fuel o) (fun _ => theoryVerify fuel rest)

/-- The context-building loop of `ProofStep::ProofStep`: pair the rule's
parameters with the argument expressions in order; for each pair compare
the parameter's declared type against the argument's type with a
`TypeComparator` that holds the substitutions recorded so far, throwing
`TypeException` on inequality (`none` here), then record the
substitution.  The loop is bounded only by the parameter list: surplus
arguments are silently ignored, and an argument list shorter than the
parameter list dereferences the past-the-end argument iterator (undefined
behaviour, `none`).  There is no arity check in this path. -/
def makeProofStepContext (fuel : Nat) : List Node → List Expr → Ctx → Option Ctx
  | [], _, m => some m
  | p :: ps, a :: rest, m =>
    match getType? a with
    | some aty =>
      match typeCompare fuel (some m) (Node.type p) aty with
      | some true => makeProofStepContext fuel ps rest (ctxInsert m p a)
      | some false => none
      | none => none
    | none => none
  | _ :: _, [], _ => none

/-! ### References and reference arithmetic

A `Reference` is a pair of a theory and an iterator into its object
sequence; we model the iterator by a position (`objs.length` being
`end()`). -/

/-- A reference into a theory sequence. -/
structure Ref where
  theory : List TObject
  pos : Nat

/-- `Reference::operator-=` (and the derived binary `operator-`):
`while (diff--) --ref;`.  For a negative `diff` the loop counter runs down
through every negative number without ever reaching zero (decrementing the
iterator all the while, into signed overflow): the computation never
produces a reference, `none`.  Decrementing the iterator before `begin()`
is likewise undefined. -/
def Ref.windBack (r : Ref) (diff : Int) : Option Ref :=
  if diff < 0 then none
  else if diff.toNat ≤ r.pos then some ⟨r.theory, r.pos - diff.toNat⟩
  else none

/-! ### The theory store (`Theory`): object sequence, name index, parent

`Theory` holds an ordered `std::list` of objects and a
`std::map<Object *, iterator, NodeCompare>` whose comparator orders by
name — i.e. a map keyed by the object's name.  `parent` and
`parent_object` (the iterator to the object in the parent under which
this theory hangs) are packed into one optional pair.  List iterators are
stable in C++; with positions as indices an insertion in the middle
shifts the stored index positions instead, preserving which object each
entry denotes. -/

/-- A theory: object sequence, name index (name, position), and the
nullable parent pointer together with the `parent_object` position — a
root theory has no parent, a child theory stores both. -/
inductive NTheory where
  | root (objs : List TObject) (index : List (String × Nat))
  | child (objs : List TObject) (index : List (String × Nat))
          (parent : NTheory) (parentPos : Nat)

/-- Object sequence of a theory. -/
def NTheory.objs : NTheory → List TObject
  | .root os _ => os
  | .child os _ _ _ => os

/-- Name index of a theory (`name_space`). -/
def NTheory.index : NTheory → List (String × Nat)
  | .root _ ix => ix
  | .child _ ix _ _ => ix

/-- Parent theory and attachment position (null for a root). -/
def NTheory.parent : NTheory → Option (NTheory × Nat)
  | .root _ _ => none
  | .child _ _ p ppos => some (p, ppos)

/-- Rebuild a theory with a new object sequence and index, keeping its
parent link. -/
def NTheory.withData : NTheory → List TObject → List (String × Nat) → NTheory
  | .root _ _, os, ix => .root os ix
  | .child _ _ p ppos, os, ix => .child os ix p ppos

/-- `name_space.find` (the map is keyed by name through `NodeCompare`). -/
def lookupName : List (String × Nat) → String → Option Nat
  | [], _ => none
  | (nm, pos) :: rest, s => if nm = s then some pos else lookupName rest s

/-- Result of `Theory::add`: the new theory and the insertion position, or
the thrown `NamespaceException::DUPLICATE`. -/
inductive AddResult where
  | ok (th : NTheory) (pos : Nat)
  | dup (name : String)

/-- Did `Theory::add` throw `DuplicateName`? -/
def AddResult.isDup : AddResult → Bool
  | .dup _ => true
  | .ok _ _ => false

/-- The insertion position of `objects.insert(++after, object)`:
incrementing the `end()` sentinel wraps to `begin()` in the circular list
implementation, which realises the documented "insert at the beginning
for the begin sentinel" behaviour; otherwise the new object sits
immediately after `after`. -/
def addPos (th : NTheory) (after : Nat) : Nat :=
  if after = th.objs.length then 0 else after + 1

/-- Insertion into the object sequence at a position.  (C++ list
iterators are stable; with positions as indices the insertion instead
shifts the positions stored in the index, preserving which object each
entry denotes — see `shiftIndex`.) -/
def insertList (l : List TObject) (x : TObject) (pos : Nat) : List TObject :=
  l.take pos ++ x :: l.drop pos

/-- Position fix-up of the name index after an insertion at `pos`. -/
def shiftIndex (ix : List (String × Nat)) (pos : Nat) : List (String × Nat) :=
  ix.map (fun e => if pos ≤ e.2 then (e.1, e.2 + 1) else e)

/-- The new name index: index the inserted position under the object's
name exactly when the name is non-empty. -/
def addIndex (ix : List (String × Nat)) (nm : String) (pos : Nat) :
    List (String × Nat) :=
  if nm ≠ "" then (nm, pos) :: shiftIndex ix pos else shiftIndex ix pos

/-- `Theory::add(object, after)`: look the object's name up in the name
index — any hit (the comparator only sees names) throws `DUPLICATE`;
otherwise insert the object immediately after `after` and index the
position under the object's name when the name is non-empty. -/
def NTheory.add (th : NTheory) (obj : TObject) (after : Nat) : AddResult :=
  match lookupName th.index obj.name with
  | some _ => .dup obj.name
  | none =>
    .ok (th.withData (insertList th.objs obj (addPos th after))
                     (addIndex th.index obj.name (addPos th after)))
        (addPos th after)

/-- `Theory::get(reference)`: look the name up in this theory's index; on
a miss walk up through the parents; `none` at the root models the
returned `end()` iterator (not found). -/
def NTheory.get : NTheory → String → Option (NTheory × Nat)
  | .root os ix, nm =>
    match lookupName ix nm with
    | some pos => some (.root os ix, pos)
    | none => none
  | .child os ix p ppos, nm =>
    match lookupName ix nm with
    | some pos => some (.child os ix p ppos, pos)
    | none => p.get nm

/-! ### Parsing a reference descriptor (`Reference::Reference`)

The constructor takes the current theory, the current position and the
description string.  Faithful details of the C++ code:
* `int pos_tilde = description.find('~')` stores `npos` converted to
  `int`, i.e. `-1`, when there is no tilde, and the test `if (pos_tilde)`
  is therefore TRUE for descriptors without a tilde and FALSE when the
  tilde is the first character;
* `substr(0, pos_tilde)` with `pos_tilde = -1` converts to `npos` and
  yields the whole string;
* `istringstream >> diff` leaves `0` on a parse failure;
* the branch for `parent^<n>` compares `base.substr(0, 6)` — a
  six-character prefix — against the seven-character literal
  `"parent^"`, which can never be equal, so that branch is dead and such
  descriptors fall through to the name lookup;
* in the name branch the `theory` member is left uninitialised; we return
  the theory that owns the resolved position (later dereferences only use
  the `ref` iterator);
* the final `while (diff--) --ref;` walks backward, with the same
  undefined outcomes as `Reference::operator-=`;
* `none` covers a failed name lookup (the `end()` iterator), a singular
  iterator (root's default-constructed `parent_object`), and undefined
  behaviour. -/

/-- `description.find('~')` as the C++ `int` (−1 when absent). -/
def findTildeInt : List Char → Int
  | [] => -1
  | c :: rest => if c = '~' then 0 else
      match findTildeInt rest with
      | -1 => -1
      | k => k + 1

/-- `istringstream >> int`: skip whitespace, optional sign, longest digit
prefix; `0` on failure. -/
def parseIntCpp (s : List Char) : Int :=
  let s1 := s.dropWhile (fun c => c.isWhitespace)
  let core : Bool × List Char :=
    match s1 with
    | '-' :: rest => (true, rest)
    | '+' :: rest => (false, rest)
    | _ => (false, s1)
  let digits := core.2.takeWhile (fun c => c.isDigit)
  let v : Nat := digits.foldl (fun acc c => acc * 10 + (c.toNat - '0'.toNat)) 0
  if core.1 then -(v : Int) else (v : Int)

/-- The `while (level--)` loop of the (dead) `parent^<n>` branch: each
iteration moves to the parent theory and takes the NEW theory's
`parent_object` iterator. -/
def ancestorIter : NTheory → Option Nat → Nat → Option (NTheory × Option Nat)
  | th, ref, 0 => some (th, ref)
  | th, _, Nat.succ k =>
    match th.parent with
    | some (p, _) =>
      match p.parent with
      | some (_, ppos) => ancestorIter p (some ppos) k
      | none => ancestorIter p none k
    | none => none

/-- `Reference::Reference(this_theory, this_it, description)`. -/
def resolveDescriptor (thisTh : NTheory) (thisPos : Nat) (desc : List Char) :
    Option (NTheory × Nat) :=
  let posTilde : Int := findTildeInt desc
  let base : List Char :=
    if posTilde ≠ 0 then
      (if posTilde < 0 then desc else desc.take posTilde.toNat)
    else desc
  let diff : Int :=
    if posTilde ≠ 0 then parseIntCpp (desc.drop (posTilde + 1).toNat) else 0
  let resolved : Option (NTheory × Nat) :=
    if base = "this".data then some (thisTh, thisPos)
    else if base = "parent".data then
      match thisTh.parent with
      | some (p, ppos) => some (p, ppos)
      | none => none
    else if base.take 6 = "parent^".data then
      match ancestorIter thisTh (some thisPos) (parseIntCpp (base.drop 7)).toNat with
      | some (th2, some r) => some (th2, r)
      | _ => none
    else thisTh.get (String.mk base)
  match resolved with
  | some (th2, pos) =>
    if diff < 0 then none
    else if diff.toNat ≤ pos then some (th2, pos - diff.toNat)
    else none
  | none => none

/-! ### Wellformedness of the name index

The invariant maintained by `Theory::add`: the name index contains exactly
the objects with a non-empty identifier, each entry pointing at the
position of the object carrying its name. -/

/-- One index entry is sound: non-empty name, valid position, and the
object at that position carries the entry's name. -/
def indexEntryOkB (objs : List TObject) (e : String × Nat) : Bool :=
  (e.1 != "") && (decide (e.2 < objs.length)) &&
  (match objs[e.2]? with
   | some o => TObject.name o == e.1
   | none => false)

/-- Membership test in the index. -/
def idxHas (ix : List (String × Nat)) (s : String) (i : Nat) : Bool :=
  ix.any (fun e => e.1 == s && e.2 == i)

/-- Every object with a non-empty identifier is indexed at its
position. -/
def namedAllIndexedB (objs : List TObject) (ix : List (String × Nat)) : Bool :=
  (List.range objs.length).all (fun i =>
    match objs[i]? with
    | some o => (TObject.name o == "") || idxHas ix (TObject.name o) i
    | none => true)

/-- Wellformedness of a theory and of all its ancestors. -/
def NTheory.wf : NTheory → Bool
  | .root objs ix =>
    ix.all (indexEntryOkB objs) && namedAllIndexedB objs ix && true
  | .child objs ix p _ =>
    ix.all (indexEntryOkB objs) && namedAllIndexedB objs ix && NTheory.wf p

/-! ### Concrete instances

A small arena of nodes and the rules of the test suite (excluded middle,
double negation, modus ponens), used to instantiate the theorems. -/

/-- Statement variable `a` (a rule parameter). -/
def nA : Node := (0, .builtin .statement, "a")

/-- Statement variable `b` (a rule parameter). -/
def nB : Node := (1, .builtin .statement, "b")

/-- A concrete statement node `p`. -/
def nP : Node := (2, .builtin .statement, "p")

/-- A concrete statement node `q`. -/
def nQ : Node := (3, .builtin .statement, "q")

/-- The declared type node `person`. -/
def nPersonT : Node := (4, .builtin .type, "person")

/-- The atomic type expression `person`. -/
def tyPerson : Expr := .atomic nPersonT

/-- The type parameter node `T` of a rule. -/
def nT : Node := (5, .builtin .type, "T")

/-- The atomic type expression `T`. -/
def tyT : Expr := .atomic nT

/-- A lambda parameter `x : T`. -/
def nX : Node := (6, tyT, "x")

/-- A lambda parameter `y : person`. -/
def nY : Node := (7, tyPerson, "y")

/-- A lambda-typed rule parameter `f`. -/
def nF : Node := (8, .lambdaType (.builtin .statement) [tyPerson], "f")

/-- The `double_negation` equivalence rule: `(not (not a))` vs `a`. -/
def doubleNegRule : Rule :=
  .equivalence [nA] (.neg (.neg (.atomic nA))) (.atomic nA)

/-- Context `a ↦ p` for the double-negation example. -/
def ctxDN : Ctx := [(nA, .atomic nP)]

/-- The `ponens` deduction rule: premises `(impl a b)` and `a`,
conclusion `b`. -/
def ponensRule : Rule :=
  .deduction [nA, nB] [.conn .impl (.atomic nA) (.atomic nB), .atomic nA] (.atomic nB)

/-- Context `a ↦ p, b ↦ q` for the modus-ponens example. -/
def ctxMP : Ctx := [(nA, .atomic nP), (nB, .atomic nQ)]

/-- The expression `(impl p q)`. -/
def exprImplPQ : Expr := .conn .impl (.atomic nP) (.atomic nQ)

/-- Context `T ↦ person` for the lambda-matching example. -/
def ctxC4 : Ctx := [(nT, tyPerson)]

/-- Template lambda `(lambda ((T x)) x)`. -/
def templLam : Expr := .lam [nX] (.atomic nX)

/-- Target lambda `(lambda ((person y)) y)`. -/
def targetLam : Expr := .lam [nY] (.atomic nY)

/-- The context binding after matching the lambda parameters:
`x ↦ y` on top of `T ↦ person`. -/
def ctxC4x : Ctx := [(nX, .atomic nY), (nT, tyPerson)]

/-- Context binding the callee `f` to an atomic expression. -/
def ctxAtomBind : Ctx := [(nF, .atomic nP)]

/-- Context binding the callee `f` to a lambda expression. -/
def ctxLamBind : Ctx := [(nF, .lam [nX] (.atomic nX))]

/-- A theory of two plain objects, for the reference-arithmetic
example. -/
def refTheory : List TObject := [.decl nP, .decl nQ]

/-- A reference to the second object of `refTheory`. -/
def refC7 : Ref := ⟨refTheory, 1⟩

/-- A root theory with a named type and a named axiom. -/
def thRoot : NTheory :=
  .root [.decl nPersonT, .stmt "ax" (.atomic nP) none]
        [("person", 0), ("ax", 1)]

/-- A child theory attached under position 1 of `thRoot`, with one
anonymous statement. -/
def thChild : NTheory :=
  .child [.stmt "" (.atomic nQ) none] [] thRoot 1

/-- The empty theory. -/
def thEmpty : NTheory := .root [] []

/-- An anonymous axiom object. -/
def anonAxiom : TObject := .stmt "" (.atomic nP) none

/-- The theory obtained by adding `anonAxiom` to the empty theory. -/
def thOneAnon : NTheory := .root [anonAxiom] []

/-! ## Helper lemmas -/

theorem mAnd_eq_ok_true_iff (a : MRes Bool) (b : Unit → MRes Bool) :
    mAnd a b = .ok true ↔ a = .ok true ∧ b () = .ok true := by
  cases a with
  | ok v => cases v <;> simp [mAnd]
  | errCallAtom => simp [mAnd]
  | stuck => simp [mAnd]

theorem checkPremisses_eq_ok_true_iff (fuel : Nat) (ctx : Ctx) (l : List (Expr × Expr)) :
    checkPremisses fuel ctx l = .ok true ↔
      ∀ pair ∈ l, check fuel pair.1 ctx pair.2 = .ok true := by
  induction l with
  | nil => simp [checkPremisses]
  | cons hd tl ih =>
    rw [checkPremisses, mAnd_eq_ok_true_iff, ih]
    simp

theorem checkPremisses_append_false (fuel : Nat) (ctx : Ctx)
    (l1 : List (Expr × Expr)) (t p : Expr) (l2 : List (Expr × Expr))
    (h1 : ∀ pair ∈ l1, check fuel pair.1 ctx pair.2 = .ok true)
    (h2 : check fuel t ctx p = .ok false) :
    checkPremisses fuel ctx (l1 ++ (t, p) :: l2) = .ok false := by
  induction l1 with
  | nil => simp [checkPremisses, h2, mAnd]
  | cons hd tl ih =>
    have hhd : check fuel hd.1 ctx hd.2 = .ok true := h1 hd (by simp)
    rw [List.cons_append, checkPremisses, hhd]
    exact ih (fun pair hp => h1 pair (by simp [hp]))

/-! ## Claim theorems -/

/-- C1: `Theory::verify()` returns true if and only if, for every node in
the theory's sequence whose declared type is `statement` and that carries
a proof, that proof's validation of the statement returns true; a
statement without a proof (an axiom) contributes true regardless of its
content, and non-statement objects are ignored. -/
theorem theory_verify_iff_all_proofs_validate (fuel : Nat) (objs : List TObject) :
    theoryVerify fuel objs = .ok true ↔
      ∀ o ∈ objs, ∀ nm e p, o = TObject.stmt nm e (some p) →
        PStep.proves fuel p e = .ok true := by
  induction objs with
  | nil => simp [theoryVerify]
  | cons o rest ih =>
    rw [theoryVerify, mAnd_eq_ok_true_iff, ih]
    cases o with
    | stmt nm e prf =>
      cases prf with
      | some p => simp [objectVerifies]
      | none => simp [objectVerifies]
    | decl n => simp [objectVerifies]
    | rule nm r => simp [objectVerifies]

/-- C2: for an equivalence rule with templates `s1`, `s2`, a premise list
holding exactly one reference whose statement has expression `p`, and a
conclusion `c`, `validate` returns true if and only if
`(match(s1, ctx, p) ∧ match(s2, ctx, c)) ∨ (match(s1, ctx, c) ∧
 match(s2, ctx, p))` — the rule applies in either direction.  The
hypotheses restrict to matcher runs that return a boolean (no exception,
no divergence), the implicit reading of the claim. -/
theorem equivalence_rule_bidirectional (fuel : Nat) (params : List Node)
    (s1 s2 : Expr) (ctx : Ctx) (p c : Expr)
    (h1 : (check fuel s1 ctx p).isOk = true)
    (h2 : (check fuel s2 ctx c).isOk = true)
    (h3 : (check fuel s1 ctx c).isOk = true)
    (h4 : (check fuel s2 ctx p).isOk = true) :
    Rule.validate fuel (.equivalence params s1 s2) ctx [p] c = .ok true ↔
      ((check fuel s1 ctx p = .ok true ∧ check fuel s2 ctx c = .ok true) ∨
       (check fuel s1 ctx c = .ok true ∧ check fuel s2 ctx p = .ok true)) := by
  rcases e1 : check fuel s1 ctx p with b1 | _ | _ <;> rw [e1] at h1 <;>
    simp [MRes.isOk] at h1
  rcases e2 : check fuel s2 ctx c with b2 | _ | _ <;> rw [e2] at h2 <;>
    simp [MRes.isOk] at h2
  rcases e3 : check fuel s1 ctx c with b3 | _ | _ <;> rw [e3] at h3 <;>
    simp [MRes.isOk] at h3
  rcases e4 : check fuel s2 ctx p with b4 | _ | _ <;> rw [e4] at h4 <;>
    simp [MRes.isOk] at h4
  cases b1 <;> cases b2 <;> cases b3 <;> cases b4 <;>
    simp [Rule.validate, mAnd, mOr, e1, e2, e3, e4]

/-- Witness for C2: the double-negation rule applied backwards — axiom
`p` as the premise, conclusion `(not (not p))` — validates. -/
theorem equivalence_rule_bidirectional_witness :
    Rule.validate 20 doubleNegRule ctxDN [.atomic nP] (.neg (.neg (.atomic nP))) = .ok true := by
  have h := equivalence_rule_bidirectional 20 [nA]
    (.neg (.neg (.atomic nA))) (.atomic nA) ctxDN
    (.atomic nP) (.neg (.neg (.atomic nP)))
    (by decide) (by decide) (by decide) (by decide)
  exact h.mpr (Or.inr ⟨by decide, by decide⟩)

/-- C3: when the number of premise references equals the number of
premise templates, a deduction rule's `validate` matches the i-th template
against the expression of the i-th referenced statement in declared
order and returns true iff every premise matches and the conclusion
template matches the conclusion (first conjunct); it stops at the first
failing premise, returning false no matter what the later premises or the
conclusion would do (second conjunct); and permuting the references of
modus ponens makes validation fail (third conjunct). -/
theorem deduction_rule_order (fuel : Nat) (params : List Node)
    (ts : List Expr) (c0 : Expr) (ctx : Ctx) (ps : List Expr) (concl : Expr)
    (hlen : ps.length = ts.length) :
    (Rule.validate fuel (.deduction params ts c0) ctx ps concl = .ok true ↔
      ((∀ pair ∈ ts.zip ps, check fuel pair.1 ctx pair.2 = .ok true) ∧
        check fuel c0 ctx concl = .ok true))
    ∧ (∀ ts1 t ts2 ps1 p ps2, ts = ts1 ++ t :: ts2 → ps = ps1 ++ p :: ps2 →
        ts1.length = ps1.length →
        (∀ pair ∈ ts1.zip ps1, check fuel pair.1 ctx pair.2 = .ok true) →
        check fuel t ctx p = .ok false →
        Rule.validate fuel (.deduction params ts c0) ctx ps concl = .ok false)
    ∧ (Rule.validate 20 ponensRule ctxMP [exprImplPQ, .atomic nP] (.atomic nQ) = .ok true
        ∧ Rule.validate 20 ponensRule ctxMP [.atomic nP, exprImplPQ] (.atomic nQ) = .ok false) := by
  refine ⟨?_, ?_, by decide, by decide⟩
  · rw [Rule.validate]
    simp only [hlen, ne_eq, not_true_eq_false, if_false]
    rw [mAnd_eq_ok_true_iff, checkPremisses_eq_ok_true_iff]
  · intro ts1 t ts2 ps1 p ps2 hts hps hl h1 hfail
    rw [Rule.validate]
    simp only [hlen, ne_eq, not_true_eq_false, if_false]
    rw [hts, hps, List.zip_append hl, List.zip_cons_cons]
    rw [checkPremisses_append_false fuel ctx (ts1.zip ps1) t p _ h1 hfail]
    rfl

/-- Witness for C3: modus ponens with the references in declared order
(`(impl p q)` then `p`) validates the conclusion `q`; with the references
permuted it fails. -/
theorem deduction_rule_order_witness :
    Rule.validate 20 ponensRule ctxMP [exprImplPQ, .atomic nP] (.atomic nQ) = .ok true
    ∧ Rule.validate 20 ponensRule ctxMP [.atomic nP, exprImplPQ] (.atomic nQ) = .ok false := by
  have h := deduction_rule_order 20 [nA, nB]
    [.conn .impl (.atomic nA) (.atomic nB), .atomic nA] (.atomic nB) ctxMP
    [exprImplPQ, .atomic nP] (.atomic nQ) (by decide)
  exact h.2.2

/-- C4 counterexample: with the context `T ↦ person`, the type signatures
of the template lambda `(lambda ((T x)) x)` and the target lambda
`(lambda ((person y)) y)` are equal under the current context, and after
binding `x ↦ y` the bodies match — so the claimed algorithm (type
comparison sees the substitutions recorded so far) would succeed — yet the
matcher rejects the pair: `Substitution::visit(const LambdaExpr *)`
constructs its `TypeComparator` without the context. -/
theorem lambda_match_ignores_context_counterexample :
    typeCompare 20 (some ctxC4) (.lambdaType tyPerson [tyPerson]) (.lambdaType tyT [tyT]) = some true
    ∧ getType? targetLam = some (.lambdaType tyPerson [tyPerson])
    ∧ getType? templLam = some (.lambdaType tyT [tyT])
    ∧ bindLamParams ctxC4 [nX] [nY] = some ctxC4x
    ∧ check 20 (.atomic nX) ctxC4x (.atomic nY) = .ok true
    ∧ check 20 templLam ctxC4 targetLam = .ok false :=
  ⟨rfl, rfl, rfl, rfl, rfl, rfl⟩

/-- C4 (amended): comparing a target lambda against a template lambda
succeeds iff the two type signatures are equal under the EMPTY context —
the comparator does not see the substitutions recorded so far — and, after
binding each template parameter to the corresponding target parameter
wrapped as an atomic expression, the two bodies match. -/
theorem lambda_match_context_free (f : Nat) (tps : List Node) (tbody : Expr)
    (ps : List Node) (body : Expr) (m : Ctx) :
    check (f+2) (.lam tps tbody) m (.lam ps body) = .ok true ↔
      ∃ a b, getType? (.lam ps body) = some a ∧ getType? (.lam tps tbody) = some b ∧
        typeCompare f none a b = some true ∧
        ∃ m1, bindLamParams m tps ps = some m1 ∧
          ∃ m2, cmpE f tbody body m1 = .ok (true, m2) := by
  unfold check
  rw [cmpE, pushR]
  dsimp only
  rw [cmpV.eq_def]
  simp only [Nat.add_one, eraseFrames, List.foldl_nil]
  cases hA : getType? (Expr.lam ps body) with
  | none => simp [hA]
  | some a =>
    cases hB : getType? (Expr.lam tps tbody) with
    | none => simp [hA, hB]
    | some b =>
      simp only [hA, hB, Option.some.injEq]
      cases hT : typeCompare f none a b with
      | none => simp [hT]
      | some bt =>
        cases bt with
        | false => simp [hT]
        | true =>
          cases hM : bindLamParams m tps ps with
          | none => simp [hM]
          | some m1 =>
            simp only [hM, Option.some.injEq]
            cases hC : cmpE f tbody body m1 with
            | ok r =>
              cases r with
              | mk bb m2 => cases bb <;> simp [hC, hT]
            | errCallAtom => simp [hC]
            | stuck => simp [hC]
  case x_5 => exact fun _ h => Expr.noConfusion h
  case x_6 => exact fun _ _ h => Expr.noConfusion h

/-- C5: pushing a lambda-call template whose callee is bound in the
context to an atomic (non-lambda) substitute fails with the explicit
error of that combination (`throw -1`, the TODO in `Substitution::push`),
for every target and without any silent misbehaviour (first conjunct);
when the callee is bound to a lambda, the push performs lazy
beta-reduction: it binds the lambda's formal parameters to the call
arguments and pushes the lambda's body (second conjunct). -/
theorem call_template_atomic_substitute (fuel : Nat) (m : Ctx) (f : Node)
    (args : List Expr) :
    (∀ a, ctxFind m f = some (.atomic a) →
      ∀ target, check (fuel+1) (.call f args) m target = .errCallAtom)
    ∧ (∀ ps body m2 frames, ctxFind m f = some (.lam ps body) →
        bindParams m ps args = some m2 →
        pushR (fuel+1) m (.call f args) frames = pushR fuel m2 body (ps :: frames)) := by
  constructor
  · intro a ha target
    unfold check
    rw [cmpE, pushR, ha]
  · intro ps body m2 frames hf hb
    rw [pushR, hf]
    dsimp only
    rw [hb]

/-- Witness for C5: with `f ↦ p` (an atomic substitute) a call template
errs for a concrete target; with `f ↦ (lambda ((T x)) x)` the push
beta-reduces to the body under the extended bindings. -/
theorem call_template_atomic_substitute_witness :
    check 6 (.call nF [.atomic nY]) ctxAtomBind (.atomic nP) = .errCallAtom
    ∧ pushR 6 ctxLamBind (.call nF [.atomic nY]) []
        = pushR 5 (substAdd ctxLamBind nX (.atomic nY)) (.atomic nX) [[nX]] :=
  ⟨(call_template_atomic_substitute 5 ctxAtomBind nF [.atomic nY]).1 nP rfl (.atomic nP),
   (call_template_atomic_substitute 5 ctxLamBind nF [.atomic nY]).2 [nX] (.atomic nX)
     (substAdd ctxLamBind nX (.atomic nY)) [] rfl rfl⟩

/-- C6 counterexample: a premise-count disagreement does NOT raise any
`ArityMismatch` error — no such error exists in the code.  A tautology
applied with one premise reference and an equivalence rule applied with
none simply return the ordinary value `false` from `validate_pass`, and
the `ProofStep` constructor run with fewer arguments than rule parameters
walks off the end of the argument vector (undefined behaviour), raising
nothing. -/
theorem arity_mismatch_counterexample :
    Rule.validate 10 (.tautology [nA] (.atomic nA)) ctxDN [.atomic nP] (.atomic nP) = .ok false
    ∧ Rule.validate 10 doubleNegRule ctxDN [] (.atomic nP) = .ok false
    ∧ makeProofStepContext 10 [nA] [] [] = none :=
  ⟨rfl, rfl, rfl⟩

/-- C6 (amended): when a proof step's premise references disagree with
the rule's premise count, validation returns the ordinary value `false`
(no error is raised); construction performs no arity check at all — the
`ProofStep` constructor pairs parameters with arguments up to the
parameter count, so surplus arguments are silently ignored and an
argument list shorter than the parameter list runs into undefined
behaviour.  No `ArityMismatch` error exists. -/
theorem arity_mismatch_amended :
    (∀ fuel params s ctx (prems : List Expr) concl, prems.length ≠ 0 →
      Rule.validate fuel (.tautology params s) ctx prems concl = .ok false)
    ∧ (∀ fuel params s1 s2 ctx (prems : List Expr) concl, prems.length ≠ 1 →
        Rule.validate fuel (.equivalence params s1 s2) ctx prems concl = .ok false)
    ∧ (∀ fuel params ts c0 ctx (prems : List Expr) concl, prems.length ≠ ts.length →
        Rule.validate fuel (.deduction params ts c0) ctx prems concl = .ok false)
    ∧ (∀ fuel (ps : List Node) (m : Ctx), ps.length ≠ 0 →
        makeProofStepContext fuel ps [] m = none)
    ∧ (∀ fuel (ps : List Node) (args extra : List Expr) (m : Ctx),
        ps.length = args.length →
        makeProofStepContext fuel ps (args ++ extra) m = makeProofStepContext fuel ps args m) := by
  refine ⟨?_, ?_, ?_, ?_, ?_⟩
  · intro fuel params s ctx prems concl h
    rw [Rule.validate]
    simp [h]
  · intro fuel params s1 s2 ctx prems concl h
    match prems with
    | [] => rfl
    | [p] => exact absurd rfl h
    | p :: q :: rest => rfl
  · intro fuel params ts c0 ctx prems concl h
    rw [Rule.validate]
    simp [h]
  · intro fuel ps m h
    match ps with
    | [] => exact absurd rfl h
    | p :: rest => rfl
  · intro fuel ps args extra m h
    induction ps generalizing args m with
    | nil => rfl
    | cons p rest ih =>
      match args, h with
      | a :: args2, h =>
        rw [List.cons_append, makeProofStepContext, makeProofStepContext]
        cases getType? a with
        | none => rfl
        | some aty =>
          dsimp only
          cases typeCompare fuel (some m) (Node.type p) aty with
          | none => rfl
          | some b =>
            cases b with
            | false => rfl
            | true => exact ih args2 (ctxInsert m p a) (by simpa using h)

/-- Witness for C6 (amended): concrete instantiations of each part. -/
theorem arity_mismatch_amended_witness :
    Rule.validate 10 (.tautology [nA] (.atomic nA)) ctxDN [.atomic nP, .atomic nQ] (.atomic nP) = .ok false
    ∧ Rule.validate 10 doubleNegRule ctxDN [.atomic nP, .atomic nQ] (.atomic nP) = .ok false
    ∧ Rule.validate 10 ponensRule ctxMP [.atomic nP] (.atomic nQ) = .ok false
    ∧ makeProofStepContext 10 [nA, nB] [] [] = none
    ∧ makeProofStepContext 10 [nA] ([.atomic nP] ++ [.atomic nQ]) [] = makeProofStepContext 10 [nA] [.atomic nP] [] :=
  ⟨arity_mismatch_amended.1 10 [nA] (.atomic nA) ctxDN [.atomic nP, .atomic nQ] (.atomic nP) (by decide),
   arity_mismatch_amended.2.1 10 [nA] (.neg (.neg (.atomic nA))) (.atomic nA) ctxDN
     [.atomic nP, .atomic nQ] (.atomic nP) (by decide),
   arity_mismatch_amended.2.2.1 10 [nA, nB]
     [.conn .impl (.atomic nA) (.atomic nB), .atomic nA] (.atomic nB) ctxMP
     [.atomic nP] (.atomic nQ) (by decide),
   arity_mismatch_amended.2.2.2.1 10 [nA, nB] [] (by decide),
   arity_mismatch_amended.2.2.2.2 10 [nA] [.atomic nP] [.atomic nQ] [] (by decide)⟩

/-- C7 counterexample: in a two-object theory, for the reference `r` to
the second object and `k = 1`, `(r − 1) − (−1)` is not `r`: subtracting a
negative number runs the `while (diff--) --ref;` loop without
termination (the counter decrements past every negative value), so the
expression denotes no reference at all, while the claim expects `r`. -/
theorem reference_sub_neg_counterexample :
    (Ref.windBack refC7 1).bind (fun r => Ref.windBack r (-1)) = none :=
  rfl

/-- C7 (amended): `(r − 0)` equals `r` (and hence `(r − k) − (−k) = r`
for `k = 0`); for every `k ≥ 1`, subtracting `−k` from any reference
never terminates (the backward-walk loop never reaches zero), so the
identity `(r − k) − (−k) = r` fails for every positive `k`. -/
theorem reference_sub_amended :
    (∀ r : Ref, Ref.windBack r 0 = some r)
    ∧ (∀ (r : Ref) (k : Nat), 1 ≤ k → Ref.windBack r (-(k : Int)) = none) := by
  constructor
  · intro r
    simp [Ref.windBack]
  · intro r k hk
    have hneg : -(k : Int) < 0 := by omega
    simp [Ref.windBack, hneg]

/-- Witness for C7 (amended): the concrete reference of the two-object
theory. -/
theorem reference_sub_amended_witness :
    Ref.windBack refC7 0 = some refC7 ∧ Ref.windBack refC7 (-1) = none :=
  ⟨reference_sub_amended.1 refC7,
   reference_sub_amended.2 refC7 1 (by decide)⟩

/-- C8: the `parent^k` branch of the descriptor parser is dead code — it
compares the six-character prefix `base.substr(0, 6)` against the
seven-character literal `"parent^"`, which can never be equal (last
conjunct) — so such descriptors fall through to a name lookup of the
literal string, which misses and yields the end iterator (first
conjunct), instead of the k-th ancestor's attachment position that the
comment above the branch and the spec describe (the attachment of the
example child is the second conjunct).  The working parts: `this`
resolves to the current position, `parent` to the parent's attachment
position, and `base~n` steps `n` positions backward from `base` within
its theory (remaining conjuncts). -/
theorem descriptor_parent_caret_dead :
    resolveDescriptor thChild 0 ("parent^1".data) = none
    ∧ thChild.parent = some (thRoot, 1)
    ∧ resolveDescriptor thChild 0 ("this".data) = some (thChild, 0)
    ∧ resolveDescriptor thChild 0 ("parent".data) = some (thRoot, 1)
    ∧ resolveDescriptor thRoot 1 ("ax~1".data) = some (thRoot, 0)
    ∧ (∀ s : List Char, (List.take 6 s == "parent^".data) = false) := by
  refine ⟨rfl, rfl, rfl, rfl, rfl, ?_⟩
  intro s
  have hlen : (List.take 6 s).length ≤ 6 := by
    simp [List.length_take]
  rw [beq_eq_false_iff_ne]
  intro h
  rw [h] at hlen
  exact absurd hlen (by decide)

/-- C9: `LambdaExpr::getType` initialises its argument-type vector with a
single dummy slot and lets `std::transform` write into it, so only
one-parameter lambdas produce the type the spec describes: with zero
parameters the dummy null slot is left in place and the `LambdaType`
constructor dereferences it (undefined), with two parameters the
transform writes past the end of the vector (undefined), while one
parameter yields the correct lambda type.  The spec-modelled `type_of`
(argument types = the declared types of ALL parameters, in order) is
shown alongside for the failing arities. -/
theorem lambda_gettype_arity_bug :
    getType? (.lam [] (.atomic nP)) = none
    ∧ getType? (.lam [nX, nY] (.atomic nP)) = none
    ∧ getType? (.lam [nY] (.atomic nP)) = some (.lambdaType (.builtin .statement) [tyPerson])
    ∧ lambdaTypeOfSpec [] (.builtin .statement) = .lambdaType (.builtin .statement) []
    ∧ lambdaTypeOfSpec [nX, nY] (.builtin .statement) = .lambdaType (.builtin .statement) [tyT, tyPerson]
    ∧ lambdaTypeOfSpec [nY] (.builtin .statement) = .lambdaType (.builtin .statement) [tyPerson] :=
  ⟨rfl, rfl, rfl, rfl, rfl, rfl⟩


theorem lookupName_eq_none (ix : List (String × Nat)) (s : String)
    (h : ∀ e ∈ ix, e.1 ≠ s) : lookupName ix s = none := by
  induction ix with
  | nil => rfl
  | cons e rest ih =>
    obtain ⟨nm, pos⟩ := e
    rw [lookupName, if_neg (h (nm, pos) (by simp))]
    exact ih (fun e2 he2 => h e2 (by simp [he2]))

theorem lookupName_mem (ix : List (String × Nat)) (s : String) (pos : Nat)
    (h : lookupName ix s = some pos) : (s, pos) ∈ ix := by
  induction ix with
  | nil => exact absurd h (by simp [lookupName])
  | cons e rest ih =>
    obtain ⟨nm, p0⟩ := e
    rw [lookupName] at h
    by_cases hn : nm = s
    · rw [if_pos hn] at h
      obtain rfl : p0 = pos := by simpa using h
      simp [hn]
    · rw [if_neg hn] at h
      simp [ih h]

theorem indexEntryOk_spec (objs : List TObject) (e : String × Nat)
    (h : indexEntryOkB objs e = true) :
    e.1 ≠ "" ∧ e.2 < objs.length ∧ ∃ o, objs[e.2]? = some o ∧ TObject.name o = e.1 := by
  unfold indexEntryOkB at h
  rw [Bool.and_eq_true, Bool.and_eq_true] at h
  obtain ⟨⟨h1, h2⟩, h3⟩ := h
  refine ⟨by simpa using h1, by simpa using h2, ?_⟩
  cases hg : objs[e.2]? with
  | none => rw [hg] at h3; exact absurd h3 (by simp)
  | some o =>
    rw [hg] at h3
    exact ⟨o, rfl, by simpa using h3⟩

theorem indexEntryOk_build (objs : List TObject) (e : String × Nat) (o : TObject)
    (h1 : e.1 ≠ "") (h2 : objs[e.2]? = some o) (h3 : TObject.name o = e.1) :
    indexEntryOkB objs e = true := by
  have hlt : e.2 < objs.length := by
    rcases List.getElem?_eq_some.mp h2 with ⟨hl, _⟩
    exact hl
  unfold indexEntryOkB
  rw [Bool.and_eq_true, Bool.and_eq_true]
  exact ⟨⟨by simpa using h1, by simpa using hlt⟩, by rw [h2]; simpa using h3⟩

theorem idxHas_iff (ix : List (String × Nat)) (s : String) (i : Nat) :
    idxHas ix s i = true ↔ ∃ e ∈ ix, e.1 = s ∧ e.2 = i := by
  unfold idxHas
  rw [List.any_eq_true]
  constructor
  · rintro ⟨e, he, hb⟩
    rw [Bool.and_eq_true] at hb
    exact ⟨e, he, by simpa using hb.1, by simpa using hb.2⟩
  · rintro ⟨e, he, h1, h2⟩
    exact ⟨e, he, by rw [Bool.and_eq_true]; exact ⟨by simpa using h1, by simpa using h2⟩⟩

theorem namedAll_spec (objs : List TObject) (ix : List (String × Nat)) :
    namedAllIndexedB objs ix = true ↔
      ∀ i o, objs[i]? = some o → TObject.name o ≠ "" →
        idxHas ix (TObject.name o) i = true := by
  unfold namedAllIndexedB
  rw [List.all_eq_true]
  constructor
  · intro h i o hg hne
    have hlt : i < objs.length := (List.getElem?_eq_some.mp hg).1
    have := h i (List.mem_range.mpr hlt)
    rw [hg] at this
    rcases (Bool.or_eq_true _ _).mp this with h1 | h2
    · exact absurd (by simpa using h1) hne
    · exact h2
  · intro h i _
    cases hg : objs[i]? with
    | none => simp
    | some o =>
      dsimp only
      by_cases hne : TObject.name o = ""
      · simp [hne]
      · simp [h i o hg hne]

theorem insertAt_length (l : List TObject) (x : TObject) (pos : Nat)
    (hpos : pos ≤ l.length) :
    (l.take pos ++ x :: l.drop pos).length = l.length + 1 := by
  simp [List.length_take, List.length_drop]
  omega

theorem insertAt_getElem? (l : List TObject) (x : TObject) (pos i : Nat)
    (hpos : pos ≤ l.length) :
    (l.take pos ++ x :: l.drop pos)[i]? =
      if i < pos then l[i]? else if i = pos then some x else l[i-1]? := by
  have hlen : (l.take pos).length = pos := by
    simp [List.length_take]
    omega
  by_cases h1 : i < pos
  · rw [List.getElem?_append_left (by omega), if_pos h1]
    exact List.getElem?_take_of_lt h1
  · rw [List.getElem?_append_right (by omega), hlen, if_neg h1]
    by_cases h2 : i = pos
    · subst h2
      simp
    · rw [if_neg h2]
      have : i - pos = (i - pos - 1) + 1 := by omega
      rw [this]
      simp only [List.getElem?_cons_succ, List.getElem?_drop]
      congr 1
      omega

theorem wf_iff (th : NTheory) :
    th.wf = true ↔
      ((∀ e ∈ th.index, indexEntryOkB th.objs e = true)
        ∧ namedAllIndexedB th.objs th.index = true
        ∧ ∀ p ppos, th.parent = some (p, ppos) → p.wf = true) := by
  cases th with
  | root objs ix =>
    simp [NTheory.wf, NTheory.index, NTheory.objs, NTheory.parent,
      List.all_eq_true, Bool.and_eq_true, and_assoc]
  | child objs ix p ppos =>
    simp [NTheory.wf, NTheory.index, NTheory.objs, NTheory.parent,
      List.all_eq_true, Bool.and_eq_true, and_assoc]

theorem get_empty_of_wf : ∀ (th : NTheory), th.wf = true → th.get "" = none
  | .root objs ix => by
    intro h
    rw [wf_iff] at h
    obtain ⟨h1, _, _⟩ := h
    show (match lookupName ix "" with
          | some pos => some (NTheory.root objs ix, pos)
          | none => none) = none
    rw [lookupName_eq_none ix ""
      (fun e he => (indexEntryOk_spec objs e (h1 e he)).1)]
  | .child objs ix p ppos => by
    intro h
    rw [wf_iff] at h
    obtain ⟨h1, _, h3⟩ := h
    show (match lookupName ix "" with
          | some pos => some (NTheory.child objs ix p ppos, pos)
          | none => p.get "") = none
    rw [lookupName_eq_none ix ""
      (fun e he => (indexEntryOk_spec objs e (h1 e he)).1)]
    exact get_empty_of_wf p (h3 p ppos rfl)

theorem get_named_of_wf : ∀ (th th2 : NTheory) (nm : String) (pos : Nat),
    th.wf = true → th.get nm = some (th2, pos) →
    ∃ o, th2.objs[pos]? = some o ∧ TObject.name o ≠ ""
  | .root objs ix, th2, nm, pos => by
    intro hwf hget
    rw [wf_iff] at hwf
    obtain ⟨h1, _, _⟩ := hwf
    have hunf : NTheory.get (.root objs ix) nm =
        (match lookupName ix nm with
         | some p0 => some (NTheory.root objs ix, p0)
         | none => none) := rfl
    rw [hunf] at hget
    cases hlk : lookupName ix nm with
    | some p0 =>
      rw [hlk] at hget
      rw [Option.some.injEq, Prod.mk.injEq] at hget
      obtain ⟨hth, hpos⟩ := hget
      obtain ⟨hne, _, o, ho, hname⟩ :=
        indexEntryOk_spec objs (nm, p0) (h1 _ (lookupName_mem ix nm p0 hlk))
      refine ⟨o, ?_, ?_⟩
      · rw [← hth]
        dsimp only [NTheory.objs]
        rw [← hpos]
        exact ho
      · rw [hname]
        exact hne
    | none =>
      rw [hlk] at hget
      exact absurd hget (by simp)
  | .child objs ix p ppos, th2, nm, pos => by
    intro hwf hget
    rw [wf_iff] at hwf
    obtain ⟨h1, _, h3⟩ := hwf
    have hunf : NTheory.get (.child objs ix p ppos) nm =
        (match lookupName ix nm with
         | some p0 => some (NTheory.child objs ix p ppos, p0)
         | none => p.get nm) := rfl
    rw [hunf] at hget
    cases hlk : lookupName ix nm with
    | some p0 =>
      rw [hlk] at hget
      rw [Option.some.injEq, Prod.mk.injEq] at hget
      obtain ⟨hth, hpos⟩ := hget
      obtain ⟨hne, _, o, ho, hname⟩ :=
        indexEntryOk_spec objs (nm, p0) (h1 _ (lookupName_mem ix nm p0 hlk))
      refine ⟨o, ?_, ?_⟩
      · rw [← hth]
        dsimp only [NTheory.objs]
        rw [← hpos]
        exact ho
      · rw [hname]
        exact hne
    | none =>
      rw [hlk] at hget
      exact get_named_of_wf p th2 nm pos (h3 p ppos rfl) hget


theorem withData_objs (th : NTheory) (os : List TObject) (ix : List (String × Nat)) :
    (th.withData os ix).objs = os := by
  cases th <;> rfl

theorem withData_index (th : NTheory) (os : List TObject) (ix : List (String × Nat)) :
    (th.withData os ix).index = ix := by
  cases th <;> rfl

theorem withData_parent (th : NTheory) (os : List TObject) (ix : List (String × Nat)) :
    (th.withData os ix).parent = th.parent := by
  cases th <;> rfl

theorem addPos_le (th : NTheory) (after : Nat) (h : after ≤ th.objs.length) :
    addPos th after ≤ th.objs.length := by
  unfold addPos
  split <;> omega

theorem insertList_getElem? (l : List TObject) (x : TObject) (pos i : Nat)
    (hpos : pos ≤ l.length) :
    (insertList l x pos)[i]? =
      if i < pos then l[i]? else if i = pos then some x else l[i-1]? :=
  insertAt_getElem? l x pos i hpos

theorem add_preserves_wf (th : NTheory) (obj : TObject) (after : Nat)
    (th2 : NTheory) (pos : Nat) (hafter : after ≤ th.objs.length)
    (hwf : th.wf = true) (hadd : th.add obj after = .ok th2 pos) :
    th2.wf = true := by
  rw [wf_iff] at hwf
  obtain ⟨hEnt, hCom, hPar⟩ := hwf
  unfold NTheory.add at hadd
  cases hlk : lookupName th.index (TObject.name obj) with
  | some _ => rw [hlk] at hadd; exact absurd hadd (by simp)
  | none =>
    rw [hlk] at hadd
    rw [AddResult.ok.injEq] at hadd
    obtain ⟨hth2, _⟩ := hadd
    subst hth2
    have hP : addPos th after ≤ th.objs.length := addPos_le th after hafter
    rw [wf_iff, withData_objs, withData_index, withData_parent]
    have hShift : ∀ e2 ∈ shiftIndex th.index (addPos th after),
        indexEntryOkB (insertList th.objs obj (addPos th after)) e2 = true := by
      intro e2 he2
      obtain ⟨e, he, rfl⟩ := List.mem_map.mp he2
      obtain ⟨hne, hlt, o, ho, hnameo⟩ := indexEntryOk_spec _ e (hEnt e he)
      by_cases hpe : addPos th after ≤ e.2
      · rw [if_pos hpe]
        refine indexEntryOk_build _ (e.1, e.2 + 1) o hne ?_ hnameo
        rw [insertList_getElem? _ _ _ _ hP]
        show (if e.2 + 1 < addPos th after then _ else _) = _
        rw [if_neg (by omega), if_neg (by omega)]
        simpa using ho
      · rw [if_neg hpe]
        refine indexEntryOk_build _ e o hne ?_ hnameo
        rw [insertList_getElem? _ _ _ _ hP, if_pos (by omega)]
        exact ho
    refine ⟨?_, ?_, hPar⟩
    · -- soundness of the new index
      intro e2 he2
      unfold addIndex at he2
      by_cases hnm : TObject.name obj ≠ ""
      · rw [if_pos hnm] at he2
        rcases List.mem_cons.mp he2 with rfl | hmem
        · refine indexEntryOk_build _ (TObject.name obj, addPos th after) obj hnm ?_ rfl
          rw [insertList_getElem? _ _ _ _ hP]
          simp
        · exact hShift e2 hmem
      · rw [if_neg hnm] at he2
        exact hShift e2 he2
    · -- completeness of the new index
      rw [namedAll_spec]
      intro i o hg hne2
      rw [insertList_getElem? _ _ _ _ hP] at hg
      rw [idxHas_iff]
      by_cases hi1 : i < addPos th after
      · rw [if_pos hi1] at hg
        have horig := (namedAll_spec _ _).mp hCom i o hg hne2
        rw [idxHas_iff] at horig
        obtain ⟨e, he, he1, he2⟩ := horig
        have hesh : e ∈ shiftIndex th.index (addPos th after) :=
          List.mem_map.mpr ⟨e, he, by rw [if_neg (by omega)]⟩
        refine ⟨e, ?_, he1, he2⟩
        unfold addIndex
        split
        · exact List.mem_cons_of_mem _ hesh
        · exact hesh
      · rw [if_neg hi1] at hg
        by_cases hi2 : i = addPos th after
        · rw [if_pos hi2] at hg
          obtain rfl : obj = o := by simpa using hg
          refine ⟨(TObject.name obj, addPos th after), ?_, rfl, hi2.symm⟩
          unfold addIndex
          rw [if_pos hne2]
          exact List.mem_cons_self _ _
        · rw [if_neg hi2] at hg
          have horig := (namedAll_spec _ _).mp hCom (i - 1) o hg hne2
          rw [idxHas_iff] at horig
          obtain ⟨e, he, he1, he2⟩ := horig
          have hesh : (e.1, e.2 + 1) ∈ shiftIndex th.index (addPos th after) :=
            List.mem_map.mpr ⟨e, he, by rw [if_pos (by omega)]⟩
          refine ⟨(e.1, e.2 + 1), ?_, he1, by omega⟩
          unfold addIndex
          split
          · exact List.mem_cons_of_mem _ hesh
          · exact hesh

theorem add_empty_name_no_dup (th : NTheory) (obj : TObject) (after : Nat)
    (hwf : th.wf = true) (hname : TObject.name obj = "") :
    (th.add obj after).isDup = false := by
  rw [wf_iff] at hwf
  obtain ⟨hEnt, _, _⟩ := hwf
  unfold NTheory.add
  rw [hname, lookupName_eq_none th.index ""
    (fun e he => (indexEntryOk_spec _ e (hEnt e he)).1)]
  rfl


/-- C10: in every wellformed theory the name index contains exactly the
objects with a non-empty identifier.  (1) `add` never throws
`DuplicateName` for an object whose identifier is empty, so any number of
anonymous axioms or lemmas can coexist in one theory; (2) the invariant
is preserved by every successful `add` at a valid insertion position;
(3) `get("")` misses in every theory along the parent chain and returns
the end iterator (`none`); (4) `get` never returns an anonymous object. -/
theorem name_index_exactly_named :
    (∀ (th : NTheory) (obj : TObject) (after : Nat), th.wf = true →
      TObject.name obj = "" → (th.add obj after).isDup = false)
    ∧ (∀ (th : NTheory) (obj : TObject) (after : Nat) (th2 : NTheory) (pos : Nat),
        after ≤ th.objs.length → th.wf = true → th.add obj after = .ok th2 pos →
        th2.wf = true)
    ∧ (∀ th : NTheory, th.wf = true → th.get "" = none)
    ∧ (∀ (th th2 : NTheory) (nm : String) (pos : Nat), th.wf = true →
        th.get nm = some (th2, pos) →
        ∃ o, th2.objs[pos]? = some o ∧ TObject.name o ≠ "") :=
  ⟨add_empty_name_no_dup, add_preserves_wf, get_empty_of_wf, get_named_of_wf⟩

/-- Witness for C10: adding an anonymous axiom to the empty theory does
not throw, the resulting theory is wellformed, `get("")` misses through
the child-parent chain, and looking up `person` yields a named object. -/
theorem name_index_exactly_named_witness :
    (thEmpty.add anonAxiom 0).isDup = false
    ∧ NTheory.wf thOneAnon = true
    ∧ thChild.get "" = none
    ∧ ∃ o, thRoot.objs[(0 : Nat)]? = some o ∧ TObject.name o ≠ "" :=
  ⟨name_index_exactly_named.1 thEmpty anonAxiom 0 (by decide) rfl,
   name_index_exactly_named.2.1 thEmpty anonAxiom 0 thOneAnon 0 (by decide) (by decide) rfl,
   name_index_exactly_named.2.2.1 thChild (by decide),
   name_index_exactly_named.2.2.2 thRoot thRoot "person" 0 (by decide) rfl⟩

end LogicKernel
